import Mathlib

/-!
Verification of the `source-span` lazy position-aware character buffer.

The development shallowly embeds the two source files:

* `src/position.rs` — the `Position` value type (zero-based line/column
  cursor, lexicographic order, and the cursor-advance rule `next`);
* `src/lazy.rs` — the lazy `Buffer` (its internal `Inner` state), its
  line-by-line fill (`read_line`), position lookup (`index_at`), index
  lookup (`get`), position access (`at`), and the `Iter` iterator with its
  `into_string` consumer.

Rust `usize` values are modelled as `Nat` (no overflow is relevant for the
properties checked here).  The fallible input stream `I : Iterator<Item =
Result<char>>` is modelled as a `List (Except ε Char)` of remaining items;
the error payload type `ε` is abstract, matching the fact that the code
never inspects the payload.  Rust loops are modelled as follows: the
`read_line` inner loop recurses structurally on the remaining input list;
the `while cond && read_line()` loops use a fuel argument instantiated at
the call sites with `input.length + 1`, which strictly bounds the number of
iterations because every successful `read_line` consumes at least one input
item (the line number can only change by consuming a `'\n'`).  A Rust
out-of-bounds indexing panic is modelled by returning `none` at the outer
`Option` layer of `indexAt` / `atPos` / `iterSpan`.

The `Span` type lives in the crate root, which is not part of the provided
sources; it is modelled from the spec where marked.
-/

namespace SourceSpan

/-- `Position` from `src/position.rs`: zero-based line and column. -/
structure Position where
  line : Nat
  column : Nat
deriving DecidableEq

/-- The Rust `#[derive(PartialOrd, Ord)]` order: lexicographic on
`(line, column)`. -/
def Position.lt (a b : Position) : Prop :=
  a.line < b.line ∨ (a.line = b.line ∧ a.column < b.column)

instance : LT Position := ⟨Position.lt⟩

def Position.le (a b : Position) : Prop := a < b ∨ a = b

instance : LE Position := ⟨Position.le⟩

instance (a b : Position) : Decidable (a < b) :=
  inferInstanceAs (Decidable (a.line < b.line ∨ (a.line = b.line ∧ a.column < b.column)))

instance (a b : Position) : Decidable (a ≤ b) :=
  inferInstanceAs (Decidable (a < b ∨ a = b))

theorem Position.lt_def {a b : Position} :
    a < b ↔ a.line < b.line ∨ (a.line = b.line ∧ a.column < b.column) := Iff.rfl

theorem Position.eq_def {a b : Position} :
    a = b ↔ a.line = b.line ∧ a.column = b.column := by
  cases a; cases b; simp

theorem Position.le_def {a b : Position} :
    a ≤ b ↔ a.line < b.line ∨ (a.line = b.line ∧ a.column ≤ b.column) := by
  show a < b ∨ a = b ↔ _
  rw [Position.lt_def, Position.eq_def]
  omega

theorem Position.le_refl (a : Position) : a ≤ a := by
  rw [Position.le_def]; omega

theorem Position.le_of_lt {a b : Position} (h : a < b) : a ≤ b := Or.inl h

theorem Position.le_trans {a b c : Position} (h₁ : a ≤ b) (h₂ : b ≤ c) : a ≤ c := by
  rw [Position.le_def] at *; omega

theorem Position.lt_of_lt_of_le {a b c : Position} (h₁ : a < b) (h₂ : b ≤ c) : a < c := by
  rw [Position.lt_def] at *; rw [Position.le_def] at h₂; omega

theorem Position.not_lt_of_le {a b : Position} (h : a ≤ b) : ¬b < a := by
  rw [Position.le_def] at h; rw [Position.lt_def]; omega

theorem Position.not_le_of_lt {a b : Position} (h : a < b) : ¬b ≤ a := by
  rw [Position.lt_def] at h; rw [Position.le_def]; omega

theorem Position.not_lt_self (a : Position) : ¬a < a :=
  Position.not_lt_of_le (Position.le_refl a)

/-- `Position::new`. -/
def Position.new (line column : Nat) : Position := ⟨line, column⟩

/-- Rust `usize::MAX` (the source targets 64-bit `usize`). -/
def usizeMax : Nat := 2 ^ 64 - 1

/-- `Position::end()`: the maximum position `(usize::MAX, usize::MAX)`.
(`end` is a Lean keyword, hence the name.) -/
def Position.sentinelEnd : Position := ⟨usizeMax, usizeMax⟩

/-- `Position::next_column`. -/
def Position.nextColumn (p : Position) : Position := ⟨p.line, p.column + 1⟩

/-- `Position::reset_column`. -/
def Position.resetColumn (p : Position) : Position := ⟨p.line, 0⟩

/-- `Position::next_line`. -/
def Position.nextLine (p : Position) : Position := ⟨p.line + 1, 0⟩

/-- Rust `char::is_control`: the Unicode `Cc` category, i.e. U+0000..U+001F
and U+007F..U+009F. -/
def isControl (c : Char) : Bool :=
  c.toNat < 32 || (127 ≤ c.toNat && c.toNat ≤ 159)

/-- `Position::next` from `src/position.rs`: the cursor-advance rule.  The
Rust `match` arms are translated in order. -/
def Position.next (p : Position) (c : Char) : Position :=
  if c = '\n' then p.nextLine
  else if c = '\r' then p.resetColumn
  else if c = '\t' then ⟨p.line, p.column / 8 * 8 + 8⟩
  else if isControl c then p
  else p.nextColumn

/-- Modelled from the spec: the `Span` type lives in the crate root, which
is missing from `src/`.  Per §3 of the spec a span is
`{start: Position, end: Position}` with `end` exclusive.  The `end` field is
named `endPos` because `end` is a Lean keyword. -/
structure Span where
  start : Position
  endPos : Position
deriving DecidableEq

/-- Modelled from the spec: `Span.push(c)`: `end = next(end, c)`; `start`
untouched (§4.1). -/
def Span.push (s : Span) (c : Char) : Span :=
  { s with endPos := s.endPos.next c }

/-- Modelled from the spec: the span of a freshly created buffer anchored at
`p` (Rust `position.into()` in `Buffer::new`): an empty span `[p, p)`. -/
def Span.ofPos (p : Position) : Span := ⟨p, p⟩

variable {ε : Type}

/-- The `Inner` state of `lazy::Buffer` from `src/lazy.rs`: the remaining
input stream, the terminal error slot, the character store, the line-start
index and the covering span.  The `RefCell` wrapper of the Rust code is
interior-mutability plumbing only; here state is threaded explicitly. -/
structure Inner (ε : Type) where
  input : List (Except ε Char)
  error : Option ε
  data : List Char
  lines : List Nat
  span : Span

/-- Result of the `read_line` pull loop: the fields of `Inner` that the loop
mutates, the error it may record, and whether a full line was added. -/
structure ReadOut (ε : Type) where
  input : List (Except ε Char)
  dat : List Char
  sp : Span
  err : Option ε
  ok : Bool

/-- The `while line == self.span.end().line` pull loop inside
`Inner::read_line` (src/lazy.rs:41-53): repeatedly pull the next stream
item; append characters to the store and push them onto the span; stop with
failure on a stream error (recording it) or on exhaustion; stop with
success once the span's line number differs from `line`. -/
def readChars (line : Nat) (input : List (Except ε Char)) (dat : List Char)
    (sp : Span) : ReadOut ε :=
  if sp.endPos.line = line then
    match input with
    | [] => ⟨[], dat, sp, none, false⟩
    | Except.error e :: rest => ⟨rest, dat, sp, some e, false⟩
    | Except.ok c :: rest => readChars line rest (dat ++ [c]) (sp.push c)
  else ⟨input, dat, sp, none, true⟩

/-- `Inner::read_line` (src/lazy.rs:38-62).  If no terminal error is
recorded, run the pull loop; on success register the next line index and
return `true`, otherwise return `false`.  If an error is already recorded,
do nothing and return `false`. -/
def readLine (st : Inner ε) : Inner ε × Bool :=
  if st.error.isNone then
    let r := readChars st.span.endPos.line st.input st.data st.span
    if r.ok then
      ({ input := r.input, error := r.err, data := r.dat,
         lines := st.lines ++ [r.dat.length], span := r.sp }, true)
    else
      ({ input := r.input, error := r.err, data := r.dat,
         lines := st.lines, span := r.sp }, false)
  else (st, false)

/-- The `while pos >= self.span.end() && self.read_line() {}` loop of
`Inner::index_at` (src/lazy.rs:77).  The fuel is instantiated with
`input.length + 1` at the call site, which strictly bounds the number of
iterations since every successful `read_line` consumes at least one input
item; the fuel-0 fallback is therefore unreachable. -/
def fillToAux (pos : Position) : Nat → Inner ε → Inner ε
  | 0, st => st
  | fuel + 1, st =>
    if st.span.endPos ≤ pos then
      match readLine st with
      | (st', true) => fillToAux pos fuel st'
      | (st', false) => st'
    else st

/-- The `while i >= self.data.len() && self.read_line() {}` loop of
`Inner::get` (src/lazy.rs:117), with the same fuel discipline as
`fillToAux`. -/
def fillToIndexAux (i : Nat) : Nat → Inner ε → Inner ε
  | 0, st => st
  | fuel + 1, st =>
    if st.data.length ≤ i then
      match readLine st with
      | (st', true) => fillToIndexAux i fuel st'
      | (st', false) => st'
    else st

/-- The `while cursor < pos` forward walk of `Inner::index_at`
(src/lazy.rs:94-97).  `rest` is the store suffix `data[i..]`, so the Rust
access `data[i]` is the head of `rest`; an empty `rest` while `cursor < pos`
is the Rust out-of-bounds panic, modelled as `none`. -/
def walkGo (pos : Position) : List Char → Nat → Position → Option (Nat × Position)
  | rest, i, cursor =>
    if cursor < pos then
      match rest with
      | [] => none
      | c :: rest' => walkGo pos rest' (i + 1) (cursor.next c)
    else some (i, cursor)

/-- `Inner::index_at` (src/lazy.rs:73-108).  The outer `Option` layer models
Rust panics: `none` means the function panicked (out-of-bounds indexing of
`lines` or `data`); `some (r, st')` is a normal return of `r` with updated
state `st'`.  The `std::mem::swap` on lines 80-81 moves the error out, so
both swap branches leave `error = none`. -/
def Inner.indexAt (st : Inner ε) (pos : Position) :
    Option (Option (Except ε Nat) × Inner ε) :=
  if pos < st.span.start then some (none, st)
  else
    let st := fillToAux pos (st.input.length + 1) st
    if st.span.endPos ≤ pos then
      match st.error with
      | some e => some (some (Except.error e), { st with error := none })
      | none => some (none, { st with error := none })
    else
      match st.lines[pos.line - st.span.start.line]? with
      | none => none
      | some i0 =>
        match walkGo pos (st.data.drop i0) i0 ⟨pos.line, 0⟩ with
        | none => none
        | some (i, cursor) =>
          if cursor = pos then some (some (Except.ok i), st)
          else some (none, st)

/-- The part of `Inner::get` after its fill loop (src/lazy.rs:119-128): if
the index is still out of range, move the error out (both swap branches
leave `error = none`); otherwise the store access `data[i]` is guarded by
the bounds check, hence total. -/
def getAfterFill (st : Inner ε) (i : Nat) : Option (Except ε Char) × Inner ε :=
  if h : st.data.length ≤ i then
    match st.error with
    | some e => (some (Except.error e), { st with error := none })
    | none => (none, { st with error := none })
  else (some (Except.ok (st.data.get ⟨i, Nat.lt_of_not_le h⟩)), st)

/-- `Inner::get` (src/lazy.rs:116-129): fill until the index is covered,
then read the store. -/
def Inner.get (st : Inner ε) (i : Nat) : Option (Except ε Char) × Inner ε :=
  getAfterFill (fillToIndexAux i (st.input.length + 1) st) i

/-- `Buffer::at` (src/lazy.rs:171-177): `index_at` composed with `get`.
(`at` is a Lean keyword, hence the name.)  The panic layer of `indexAt` is
propagated. -/
def Inner.atPos (st : Inner ε) (pos : Position) :
    Option (Option (Except ε Char) × Inner ε) :=
  match st.indexAt pos with
  | none => none
  | some (some (Except.ok i), st') => some (st'.get i)
  | some (some (Except.error e), st') => some (some (Except.error e), st')
  | some (none, st') => some (none, st')

/-- `Buffer::new` (src/lazy.rs:134-144): empty store, line index `[0]`,
span anchored at the given position, no error. -/
def Inner.mk0 (input : List (Except ε Char)) (position : Position) : Inner ε :=
  { input := input, error := none, data := [], lines := [0],
    span := Span.ofPos position }

/-- The state of a `lazy::Iter` (src/lazy.rs:246-251) minus the buffer
borrow: index state (`Some(Ok i)` / `Some(Err e)` / `None`), current
position, and exclusive end position. -/
structure Iter (ε : Type) where
  i : Option (Except ε Nat)
  pos : Position
  endPos : Position

/-- `Buffer::iter` (src/lazy.rs:192-199). -/
def iterStart (st : Inner ε) : Iter ε :=
  ⟨some (Except.ok 0), st.span.start, Position.sentinelEnd⟩

/-- `std::cmp::max` on `Position` (used by `iter_from` / `iter_span`). -/
def maxPos (a b : Position) : Position := if a ≤ b then b else a

/-- `Buffer::iter_span` (src/lazy.rs:227-237): iterate from
`max(buffer.start, span.start)` to `span.end`; the initial index state is
the result of `index_at`, whose panic layer is propagated. -/
def iterSpan (st : Inner ε) (sp : Span) : Option (Iter ε × Inner ε) :=
  let pos := maxPos st.span.start sp.start
  match st.indexAt pos with
  | none => none
  | some (i, st') => some (⟨i, pos, sp.endPos⟩, st')

/-- `Iter::next` (src/lazy.rs:268-296).  Yields nothing once `pos >= end`.
On `Some(Ok i)` it calls `Buffer::get(i)`: a character advances `pos` and
`i`; an error is yielded with the index state left unchanged; exhaustion
yields nothing.  On `Some(Err e)` (the third Rust match arm) the error is
moved out: the index state becomes `None` and the error is yielded. -/
def iterNext (st : Inner ε) (it : Iter ε) :
    Option (Except ε Char) × Inner ε × Iter ε :=
  if it.endPos ≤ it.pos then (none, st, it)
  else
    match it.i with
    | some (Except.ok i) =>
      match st.get i with
      | (some (Except.ok c), st') =>
        (some (Except.ok c), st',
         { it with pos := it.pos.next c, i := some (Except.ok (i + 1)) })
      | (some (Except.error e), st') => (some (Except.error e), st', it)
      | (none, st') => (none, st', it)
    | none => (none, st, it)
    | some (Except.error e) => (some (Except.error e), st, { it with i := none })

/-- The drain loop of `Iter::into_string` (src/lazy.rs:254-263):
`for c in self { string.push(c?) }` — stop with the first error, otherwise
accumulate the yielded characters in order.  Each character yield strictly
increases the iterator index, which stays below `data.length`, and the sum
`input.length + data.length` never increases, so the fuel chosen by
`intoString` makes the fuel-0 fallback unreachable. -/
def intoStringAux : Nat → Inner ε → Iter ε → List Char →
    Except ε (List Char) × Inner ε × Iter ε
  | 0, st, it, acc => (Except.ok acc, st, it)
  | fuel + 1, st, it, acc =>
    match iterNext st it with
    | (some (Except.ok c), st', it') => intoStringAux fuel st' it' (acc ++ [c])
    | (some (Except.error e), st', it') => (Except.error e, st', it')
    | (none, st', it') => (Except.ok acc, st', it')

/-- `Iter::into_string`, returning the accumulated characters (a `String`
in Rust is its list of characters). -/
def intoString (st : Inner ε) (it : Iter ε) :
    Except ε (List Char) × Inner ε × Iter ε :=
  intoStringAux (st.input.length + st.data.length + 1) st it []

/-- Iterate `read_line` `k` times: the reachable fill states of a buffer
(all buffer operations extend the store only through `read_line`). -/
def fillN : Nat → Inner ε → Inner ε
  | 0, st => st
  | k + 1, st => fillN k (readLine st).1

/-- Replay the cursor-advance rule over a list of characters: the position
reached after reading them from `p`. -/
def replayPos (p : Position) : List Char → Position
  | [] => p
  | c :: cs => replayPos (p.next c) cs

/-- Characters that strictly advance the cursor: `'\n'`, `'\t'` and every
non-control character.  (`'\r'` resets the column and other control
characters are zero-width.) -/
def advances (c : Char) : Bool :=
  c == '\n' || c == '\t' || !isControl c

/-- Run a sequence of `Buffer::at` calls on one buffer, threading the state
and recording each result (`none` = panic, which keeps the previous state —
it does not occur in the uses below). -/
def atChain : Inner ε → List Position → List (Option (Option (Except ε Char)))
  | _, [] => []
  | st, p :: ps =>
    match st.atPos p with
    | none => none :: atChain st ps
    | some (r, st') => some r :: atChain st' ps

/-! ### Helper lemmas about the cursor-advance rule -/

/-- Case analysis on `Position.next`, following the Rust `match` arms. -/
theorem Position.next_cases (p : Position) (c : Char) :
    (c = '\n' ∧ p.next c = ⟨p.line + 1, 0⟩) ∨
    (c ≠ '\n' ∧ c = '\r' ∧ p.next c = ⟨p.line, 0⟩) ∨
    (c ≠ '\n' ∧ c ≠ '\r' ∧ c = '\t' ∧ p.next c = ⟨p.line, p.column / 8 * 8 + 8⟩) ∨
    (c ≠ '\n' ∧ c ≠ '\r' ∧ c ≠ '\t' ∧ isControl c = true ∧ p.next c = p) ∨
    (c ≠ '\n' ∧ c ≠ '\r' ∧ c ≠ '\t' ∧ isControl c = false ∧
      p.next c = ⟨p.line, p.column + 1⟩) := by
  unfold Position.next
  split_ifs with h1 h2 h3 h4
  · exact Or.inl ⟨h1, rfl⟩
  · exact Or.inr (Or.inl ⟨h1, h2, rfl⟩)
  · exact Or.inr (Or.inr (Or.inl ⟨h1, h2, h3, rfl⟩))
  · exact Or.inr (Or.inr (Or.inr (Or.inl ⟨h1, h2, h3, h4, rfl⟩)))
  · exact Or.inr (Or.inr (Or.inr (Or.inr
      ⟨h1, h2, h3, Bool.eq_false_iff.mpr h4, rfl⟩)))

/-- Every character other than `'\r'` moves the cursor forward (weakly). -/
theorem Position.le_next (p : Position) {c : Char} (hc : c ≠ '\r') :
    p ≤ p.next c := by
  rcases Position.next_cases p c with ⟨_, h⟩ | ⟨_, hr, _⟩ | ⟨_, _, _, h⟩ |
    ⟨_, _, _, _, h⟩ | ⟨_, _, _, _, h⟩
  · rw [h, Position.le_def]; dsimp only; omega
  · exact absurd hr hc
  · rw [h, Position.le_def]; dsimp only; omega
  · rw [h]; exact Position.le_refl p
  · rw [h, Position.le_def]; dsimp only; omega

/-- For characters other than `'\r'`, the cursor stays put exactly on the
zero-width control characters (control characters other than `'\n'` and
`'\t'`). -/
theorem Position.next_eq_self_iff (p : Position) {c : Char} (hc : c ≠ '\r') :
    p.next c = p ↔ (isControl c = true ∧ c ≠ '\n' ∧ c ≠ '\t') := by
  rcases Position.next_cases p c with ⟨hn, h⟩ | ⟨_, hr, _⟩ | ⟨_, _, ht, h⟩ |
    ⟨hn, _, ht, hctl, h⟩ | ⟨_, _, _, hctl, h⟩
  · rw [h, Position.eq_def]
    dsimp only
    constructor
    · omega
    · rintro ⟨_, hn', _⟩; exact absurd hn hn'
  · exact absurd hr hc
  · rw [h, Position.eq_def]
    dsimp only
    constructor
    · omega
    · rintro ⟨_, _, ht'⟩; exact absurd ht ht'
  · rw [h]; simp [hctl, hn, ht]
  · rw [h, Position.eq_def]
    dsimp only
    constructor
    · omega
    · rintro ⟨hctl', _, _⟩; rw [hctl] at hctl'; exact absurd hctl' (by decide)

/-- Characters satisfying `advances` move the cursor strictly forward. -/
theorem Position.lt_next_of_advances {c : Char} (h : advances c = true)
    (p : Position) : p < p.next c := by
  rcases Position.next_cases p c with ⟨_, hn⟩ | ⟨hn, hr, _⟩ | ⟨_, _, _, hn⟩ |
    ⟨hn, hr, ht, hctl, _⟩ | ⟨_, _, _, _, hn⟩
  · rw [hn, Position.lt_def]; dsimp only; omega
  · subst hr; exact absurd h (by decide)
  · rw [hn, Position.lt_def]; dsimp only; omega
  · rw [advances, Bool.or_eq_true, Bool.or_eq_true] at h
    rcases h with (h | h) | h
    · exact absurd (eq_of_beq h) hn
    · exact absurd (eq_of_beq h) ht
    · rw [hctl] at h; exact absurd h (by decide)
  · rw [hn, Position.lt_def]; dsimp only; omega

/-! ### Helper lemmas about `read_line` and the fill loops -/

/-- `read_line` on a state whose error slot is occupied: a no-op reporting
failure. -/
theorem readLine_errored (inp : List (Except ε Char)) (e : ε) (dat : List Char)
    (l : List Nat) (sp : Span) :
    readLine (⟨inp, some e, dat, l, sp⟩ : Inner ε) = (⟨inp, some e, dat, l, sp⟩, false) :=
  rfl

/-- `read_line` on an exhausted, error-free stream: a no-op reporting
failure. -/
theorem readLine_empty_input (dat : List Char) (l : List Nat) (sp : Span) :
    readLine (⟨[], none, dat, l, sp⟩ : Inner ε) = (⟨[], none, dat, l, sp⟩, false) := by
  unfold readLine readChars
  rw [if_pos rfl]
  rfl

/-- The `index_at` fill loop is a no-op when the error slot is occupied. -/
theorem fillToAux_errored (pos : Position) (fuel : Nat) (inp : List (Except ε Char))
    (e : ε) (dat : List Char) (l : List Nat) (sp : Span) :
    fillToAux pos fuel (⟨inp, some e, dat, l, sp⟩ : Inner ε) = ⟨inp, some e, dat, l, sp⟩ := by
  cases fuel with
  | zero => rfl
  | succ n =>
    unfold fillToAux
    rw [readLine_errored]
    split <;> rfl

/-- The `index_at` fill loop is a no-op on an exhausted error-free stream. -/
theorem fillToAux_empty_input (pos : Position) (fuel : Nat) (dat : List Char)
    (l : List Nat) (sp : Span) :
    fillToAux pos fuel (⟨[], none, dat, l, sp⟩ : Inner ε) = ⟨[], none, dat, l, sp⟩ := by
  cases fuel with
  | zero => rfl
  | succ n =>
    unfold fillToAux
    rw [readLine_empty_input]
    split <;> rfl

/-- The `get` fill loop is a no-op when the error slot is occupied. -/
theorem fillToIndexAux_errored (i fuel : Nat) (inp : List (Except ε Char)) (e : ε)
    (dat : List Char) (l : List Nat) (sp : Span) :
    fillToIndexAux i fuel (⟨inp, some e, dat, l, sp⟩ : Inner ε) = ⟨inp, some e, dat, l, sp⟩ := by
  cases fuel with
  | zero => rfl
  | succ n =>
    unfold fillToIndexAux
    rw [readLine_errored]
    split <;> rfl

/-- The `get` fill loop is a no-op on an exhausted error-free stream. -/
theorem fillToIndexAux_empty_input (i fuel : Nat) (dat : List Char)
    (l : List Nat) (sp : Span) :
    fillToIndexAux i fuel (⟨[], none, dat, l, sp⟩ : Inner ε) = ⟨[], none, dat, l, sp⟩ := by
  cases fuel with
  | zero => rfl
  | succ n =>
    unfold fillToIndexAux
    rw [readLine_empty_input]
    split <;> rfl

/-- `get` past the buffered content with an occupied error slot surfaces the
error and clears the slot. -/
theorem get_errored (i : Nat) (inp : List (Except ε Char)) (e : ε) (dat : List Char)
    (l : List Nat) (sp : Span) (hlen : dat.length ≤ i) :
    Inner.get (⟨inp, some e, dat, l, sp⟩ : Inner ε) i
      = (some (Except.error e), ⟨inp, none, dat, l, sp⟩) := by
  unfold Inner.get
  rw [fillToIndexAux_errored]
  unfold getAfterFill
  rw [dif_pos hlen]

/-- `get` past the buffered content on an exhausted error-free stream
reports not-available and leaves the state unchanged. -/
theorem get_empty_input (i : Nat) (dat : List Char) (l : List Nat) (sp : Span)
    (hlen : dat.length ≤ i) :
    Inner.get (⟨[], none, dat, l, sp⟩ : Inner ε) i = (none, ⟨[], none, dat, l, sp⟩) := by
  unfold Inner.get
  rw [fillToIndexAux_empty_input]
  unfold getAfterFill
  rw [dif_pos hlen]

/-! ### Replay lemmas -/

theorem replayPos_append (p : Position) (l₁ l₂ : List Char) :
    replayPos p (l₁ ++ l₂) = replayPos (replayPos p l₁) l₂ := by
  induction l₁ generalizing p with
  | nil => rfl
  | cons c cs ih => simpa [replayPos] using ih (p.next c)

theorem le_replayPos (l : List Char) (h : ∀ c ∈ l, advances c = true)
    (p : Position) : p ≤ replayPos p l := by
  induction l generalizing p with
  | nil => exact Position.le_refl p
  | cons c cs ih =>
    exact Position.le_trans
      (Position.le_of_lt (Position.lt_next_of_advances (h c (by simp)) p))
      (ih (fun d hd => h d (by simp [hd])) (p.next c))

theorem lt_replayPos (l : List Char) (hne : l ≠ [])
    (h : ∀ c ∈ l, advances c = true) (p : Position) : p < replayPos p l := by
  cases l with
  | nil => exact absurd rfl hne
  | cons c cs =>
    exact Position.lt_of_lt_of_le (Position.lt_next_of_advances (h c (by simp)) p)
      (le_replayPos cs (fun d hd => h d (by simp [hd])) (p.next c))

theorem replayPos_take_lt (l : List Char) (h : ∀ c ∈ l, advances c = true)
    (p : Position) (j : Nat) (hj : j < l.length) :
    replayPos p (l.take j) < replayPos p l := by
  conv_rhs => rw [← List.take_append_drop j l]
  rw [replayPos_append]
  refine lt_replayPos _ ?_ ?_ _
  · intro hnil
    have hlen := List.length_drop j l
    rw [hnil] at hlen
    simp at hlen
    omega
  · intro d hd
    exact h d (List.drop_subset j l hd)

theorem replayPos_take_succ (l : List Char) (p : Position) (j : Nat)
    (hj : j < l.length) :
    replayPos p (l.take (j + 1)) = (replayPos p (l.take j)).next (l.get ⟨j, hj⟩) := by
  rw [List.take_succ, List.getElem?_eq_getElem hj]
  rw [replayPos_append]
  rfl

/-! ### `read_line` specification on error-free advancing streams -/

theorem readChars_nil (line : Nat) (dat : List Char) (sp : Span)
    (h : sp.endPos.line = line) :
    readChars (ε := ε) line [] dat sp = ⟨[], dat, sp, none, false⟩ := by
  unfold readChars; rw [if_pos h]

theorem readChars_cons_ok (line : Nat) (c : Char) (rest : List (Except ε Char))
    (dat : List Char) (sp : Span) (h : sp.endPos.line = line) :
    readChars line (Except.ok c :: rest) dat sp
      = readChars line rest (dat ++ [c]) (sp.push c) := by
  conv_lhs => unfold readChars
  rw [if_pos h]

theorem readChars_stop (line : Nat) (input : List (Except ε Char))
    (dat : List Char) (sp : Span) (h : ¬sp.endPos.line = line) :
    readChars line input dat sp = ⟨input, dat, sp, none, true⟩ := by
  unfold readChars; rw [if_neg h]

/-- Behaviour of the pull loop on an error-free stream of advancing
characters: it never records an error, its output stream items come from
the input, and the store is extended by a (replayed) list of advancing
characters. -/
theorem readChars_spec (line : Nat) (input : List (Except ε Char))
    (dat : List Char) (sp : Span)
    (hok : ∀ x ∈ input, ∃ c, x = Except.ok c ∧ advances c = true) :
    ∃ tl : List Char,
      (readChars line input dat sp).err = none ∧
      (∀ x ∈ (readChars line input dat sp).input, x ∈ input) ∧
      (readChars line input dat sp).dat = dat ++ tl ∧
      (∀ c ∈ tl, advances c = true) ∧
      (readChars line input dat sp).sp.start = sp.start ∧
      (readChars line input dat sp).sp.endPos = replayPos sp.endPos tl := by
  induction input generalizing dat sp with
  | nil =>
    by_cases h : sp.endPos.line = line
    · rw [readChars_nil line dat sp h]
      exact ⟨[], rfl, by simp, by simp, by simp, rfl, rfl⟩
    · rw [readChars_stop line [] dat sp h]
      exact ⟨[], rfl, by simp, by simp, by simp, rfl, rfl⟩
  | cons x rest ih =>
    by_cases h : sp.endPos.line = line
    · obtain ⟨c, rfl, hc⟩ := hok x (by simp)
      rw [readChars_cons_ok line c rest dat sp h]
      obtain ⟨tl, h1, h2, h3, h4, h5, h6⟩ :=
        ih (dat ++ [c]) (sp.push c) (fun y hy => hok y (by simp [hy]))
      refine ⟨c :: tl, h1, fun y hy => by simp [h2 y hy], ?_, ?_, ?_, ?_⟩
      · rw [h3]; simp
      · intro d hd
        rcases List.mem_cons.mp hd with rfl | hd'
        · exact hc
        · exact h4 d hd'
      · rw [h5]; rfl
      · rw [h6]; rfl
    · rw [readChars_stop line (x :: rest) dat sp h]
      exact ⟨[], rfl, by simp, by simp, by simp, rfl, rfl⟩

/-! ### The reachable-state invariant of error-free fills -/

/-- Invariant of buffer states reachable from a buffer anchored at `a` over
an error-free stream of strictly advancing characters. -/
def InvBuf (a : Position) (st : Inner ε) : Prop :=
  st.error = none ∧
  st.span.start = a ∧
  st.span.endPos = replayPos a st.data ∧
  st.lines[0]? = some 0 ∧
  (∀ c ∈ st.data, advances c = true) ∧
  (∀ x ∈ st.input, ∃ c, x = Except.ok c ∧ advances c = true)

/-- `read_line` without a recorded error, written out over the state
fields. -/
theorem readLine_no_error (inp : List (Except ε Char)) (dat : List Char)
    (l : List Nat) (sp : Span) :
    readLine (⟨inp, none, dat, l, sp⟩ : Inner ε)
      = (let r := readChars sp.endPos.line inp dat sp;
         if r.ok then
           (⟨r.input, r.err, r.dat, l ++ [r.dat.length], r.sp⟩, true)
         else
           (⟨r.input, r.err, r.dat, l, r.sp⟩, false)) := rfl

theorem readLine_preserves (a : Position) (st : Inner ε) (h : InvBuf a st) :
    InvBuf a (readLine st).1 := by
  obtain ⟨inp, err, dat, l, sp⟩ := st
  obtain ⟨herr, hstart, hend, hlines, hdat, hinp⟩ := h
  replace herr : err = none := herr
  replace hstart : sp.start = a := hstart
  replace hend : sp.endPos = replayPos a dat := hend
  replace hlines : l[0]? = some 0 := hlines
  replace hdat : ∀ c ∈ dat, advances c = true := hdat
  replace hinp : ∀ x ∈ inp, ∃ c, x = Except.ok c ∧ advances c = true := hinp
  subst herr
  obtain ⟨ys, hl⟩ : ∃ ys, l = 0 :: ys := by
    cases hsl : l with
    | nil => rw [hsl] at hlines; simp at hlines
    | cons y ys =>
      rw [hsl] at hlines
      simp at hlines
      exact ⟨ys, by rw [hlines]⟩
  subst hl
  rw [readLine_no_error]
  obtain ⟨tl, h1, h2, h3, h4, h5, h6⟩ :=
    readChars_spec sp.endPos.line inp dat sp hinp
  dsimp only
  split
  all_goals
    refine ⟨h1, ?_, ?_, ?_, ?_, fun x hx => hinp x (h2 x hx)⟩
  all_goals dsimp only
  · rw [h5, hstart]
  · rw [h6, h3, hend, replayPos_append]
  · simp
  · rw [h3]
    intro c hc
    rcases List.mem_append.mp hc with hc' | hc'
    · exact hdat c hc'
    · exact h4 c hc'
  · rw [h5, hstart]
  · rw [h6, h3, hend, replayPos_append]
  · simp
  · rw [h3]
    intro c hc
    rcases List.mem_append.mp hc with hc' | hc'
    · exact hdat c hc'
    · exact h4 c hc'

theorem fillToAux_preserves (a pos : Position) (fuel : Nat) (st : Inner ε)
    (h : InvBuf a st) : InvBuf a (fillToAux pos fuel st) := by
  induction fuel generalizing st with
  | zero => exact h
  | succ n ih =>
    unfold fillToAux
    split_ifs with hle
    · rcases hrl : readLine st with ⟨st', b⟩
      have h' : InvBuf a st' := by
        have := readLine_preserves a st h
        rw [hrl] at this
        exact this
      cases b
      · exact h'
      · exact ih st' h'
    · exact h

theorem fillN_preserves (a : Position) (k : Nat) (st : Inner ε)
    (h : InvBuf a st) : InvBuf a (fillN k st) := by
  induction k generalizing st with
  | zero => exact h
  | succ n ih => exact ih (readLine st).1 (readLine_preserves a st h)

theorem InvBuf_mk0 (chars : List Char) (p : Position)
    (h : ∀ c ∈ chars, advances c = true) :
    InvBuf p (Inner.mk0 (ε := ε) (chars.map Except.ok) p) := by
  refine ⟨rfl, rfl, rfl, rfl, ?_, ?_⟩
  · intro c hc
    simp [Inner.mk0] at hc
  · intro x hx
    replace hx : x ∈ chars.map Except.ok := hx
    rw [List.mem_map] at hx
    obtain ⟨c, hc, rfl⟩ := hx
    exact ⟨c, rfl, h c hc⟩

/-! ### Fill no-op lemmas -/

theorem fillToAux_not_le (pos : Position) (fuel : Nat) (st : Inner ε)
    (h : ¬st.span.endPos ≤ pos) : fillToAux pos fuel st = st := by
  cases fuel with
  | zero => rfl
  | succ n => unfold fillToAux; rw [if_neg h]

theorem fillToIndexAux_not_le (i fuel : Nat) (st : Inner ε)
    (h : ¬st.data.length ≤ i) : fillToIndexAux i fuel st = st := by
  cases fuel with
  | zero => rfl
  | succ n => unfold fillToIndexAux; rw [if_neg h]

/-! ### `index_at` at the anchor of a column-0 buffer -/

/-- With a label-0 anchor column, `index_at(start)` on a nonempty buffered
store finds store index 0 immediately: the simulated cursor starts exactly
at the anchor. -/
theorem walkGo_stop (pos : Position) (rest : List Char) (i : Nat)
    (cursor : Position) (h : ¬cursor < pos) :
    walkGo pos rest i cursor = some (i, cursor) := by
  unfold walkGo
  rw [if_neg h]

theorem indexAt_start_of_inv (a : Position) (ha : a.column = 0) (st : Inner ε)
    (hInv : InvBuf a st) (hd : st.data ≠ []) :
    st.indexAt a = some (some (Except.ok 0), st) := by
  obtain ⟨herr, hstart, hend, hlines, hdat, hinp⟩ := hInv
  have hlt : a < st.span.endPos := by
    rw [hend]; exact lt_replayPos st.data hd hdat a
  have hca : (⟨a.line, 0⟩ : Position) = a := by
    rw [Position.eq_def]; exact ⟨rfl, ha.symm⟩
  simp only [Inner.indexAt]
  rw [hstart]
  rw [if_neg (Position.not_lt_self a)]
  rw [fillToAux_not_le a (st.input.length + 1) st (Position.not_le_of_lt hlt)]
  rw [if_neg (Position.not_le_of_lt hlt)]
  rw [hstart, Nat.sub_self, hlines]
  dsimp only
  rw [hca, List.drop_zero]
  rw [walkGo_stop a st.data 0 a (Position.not_lt_self a)]
  dsimp only
  rw [if_pos rfl]

/-- `index_at(start)` on an empty column-0 buffer always returns normally
(no panic), whatever the fill does. -/
theorem indexAt_start_of_inv_empty (a : Position) (ha : a.column = 0)
    (st : Inner ε) (hInv : InvBuf a st) :
    ∃ r st', st.indexAt a = some (r, st') := by
  have hstart := hInv.2.1
  simp only [Inner.indexAt]
  rw [hstart]
  rw [if_neg (Position.not_lt_self a)]
  have hInv3 := fillToAux_preserves a a (st.input.length + 1) st hInv
  obtain ⟨herr3, hstart3, hend3, hlines3, hdat3, hinp3⟩ := hInv3
  by_cases hE : (fillToAux a (st.input.length + 1) st).span.endPos ≤ a
  · rw [if_pos hE, herr3]
    exact ⟨_, _, rfl⟩
  · rw [if_neg hE]
    rw [hstart3, Nat.sub_self, hlines3]
    dsimp only
    have hca : (⟨a.line, 0⟩ : Position) = a := by
      rw [Position.eq_def]; exact ⟨rfl, ha.symm⟩
    rw [hca, List.drop_zero]
    rw [walkGo_stop a (fillToAux a (st.input.length + 1) st).data 0 a
      (Position.not_lt_self a)]
    dsimp only
    rw [if_pos rfl]
    exact ⟨_, _, rfl⟩

/-! ### Draining the iterator over already-buffered advancing characters -/

/-- When the iterator has already stopped (`pos >= end`), `into_string`
yields the empty string. -/
theorem intoString_stopped (st : Inner ε) (it : Iter ε) (h : it.endPos ≤ it.pos) :
    (intoString st it).1 = Except.ok [] := by
  have hstep : iterNext st it = (none, st, it) := by
    unfold iterNext; rw [if_pos h]
  unfold intoString intoStringAux
  rw [hstep]

/-- Draining an iterator positioned at character `j` of the buffered store,
with end bound at the replay of the whole store: yields exactly the
remaining characters, without touching the state. -/
theorem intoStringAux_drain (st : Inner ε) (a : Position)
    (hadv : ∀ c ∈ st.data, advances c = true) :
    ∀ n j fuel acc, j + n = st.data.length → n ≤ fuel →
      (intoStringAux fuel st
        ⟨some (Except.ok j), replayPos a (st.data.take j), replayPos a st.data⟩ acc).1
        = Except.ok (acc ++ st.data.drop j) := by
  intro n
  induction n with
  | zero =>
    intro j fuel acc hj hf
    have hjl : j = st.data.length := by omega
    subst hjl
    rw [List.take_length, List.drop_length, List.append_nil]
    cases fuel with
    | zero => rfl
    | succ m =>
      have hstep : iterNext st
          ⟨some (Except.ok st.data.length), replayPos a st.data, replayPos a st.data⟩
          = (none, st,
             ⟨some (Except.ok st.data.length), replayPos a st.data, replayPos a st.data⟩) := by
        unfold iterNext
        rw [if_pos (Position.le_refl _)]
      unfold intoStringAux
      rw [hstep]
  | succ m ih =>
    intro j fuel acc hj hf
    have hjlt : j < st.data.length := by omega
    cases fuel with
    | zero => omega
    | succ f =>
      have hget : st.get j = (some (Except.ok (st.data.get ⟨j, hjlt⟩)), st) := by
        unfold Inner.get
        rw [fillToIndexAux_not_le j (st.input.length + 1) st (by omega)]
        unfold getAfterFill
        rw [dif_neg (by omega)]
      have hlt : replayPos a (st.data.take j) < replayPos a st.data :=
        replayPos_take_lt st.data hadv a j hjlt
      have hstep : iterNext st
          ⟨some (Except.ok j), replayPos a (st.data.take j), replayPos a st.data⟩
          = (some (Except.ok (st.data.get ⟨j, hjlt⟩)), st,
             ⟨some (Except.ok (j + 1)),
              (replayPos a (st.data.take j)).next (st.data.get ⟨j, hjlt⟩),
              replayPos a st.data⟩) := by
        unfold iterNext
        rw [if_neg (Position.not_le_of_lt hlt)]
        dsimp only
        rw [hget]
      unfold intoStringAux
      rw [hstep]
      dsimp only
      rw [← replayPos_take_succ st.data a j hjlt]
      rw [ih (j + 1) f (acc ++ [st.data.get ⟨j, hjlt⟩]) (by omega) (by omega)]
      rw [List.append_assoc]
      congr 1
      rw [List.drop_eq_getElem_cons hjlt]
      rfl

/-! ### Claims C1-C5 and C7-C10 -/

/-- Claim C1, corrected.  The original claim fails because `index_at` moves
the recorded error out of the slot, after which fill attempts resume
reading the underlying stream (see `c1_cex`).  Amended: once a stream error
has been recorded and the underlying stream is exhausted, requesting a
position at or past the buffer end (and not before its start) twice via
`index_at` yields the recorded error on the first call (`Some(Err)`) and
not-available (`None`) on the second: the stored error is moved out and
surfaced exactly once. -/
theorem c1_error_surfaced_once (st : Inner ε) (pos : Position) (e : ε)
    (he : st.error = some e) (hin : st.input = [])
    (h1 : st.span.start ≤ pos) (h2 : st.span.endPos ≤ pos) :
    st.indexAt pos = some (some (Except.error e), { st with error := none }) ∧
    Inner.indexAt { st with error := none } pos
      = some (none, { st with error := none }) := by
  obtain ⟨inp, err, dat, l, sp⟩ := st
  dsimp only at he hin h1 h2 ⊢
  subst he hin
  constructor
  · unfold Inner.indexAt
    rw [if_neg (Position.not_lt_of_le h1)]
    simp only [fillToAux_errored]
    rw [if_pos h2]
  · unfold Inner.indexAt
    rw [if_neg (Position.not_lt_of_le h1)]
    simp only [fillToAux_empty_input]
    rw [if_pos h2]

/-- Witness for C1 at a concrete errored, exhausted buffer state. -/
theorem c1_witness :
    Inner.indexAt (⟨[], some 7, ['a'], [0], ⟨⟨0, 0⟩, ⟨0, 1⟩⟩⟩ : Inner Nat) ⟨0, 1⟩
      = some (some (Except.error 7), ⟨[], none, ['a'], [0], ⟨⟨0, 0⟩, ⟨0, 1⟩⟩⟩) ∧
    Inner.indexAt (⟨[], none, ['a'], [0], ⟨⟨0, 0⟩, ⟨0, 1⟩⟩⟩ : Inner Nat) ⟨0, 1⟩
      = some (none, ⟨[], none, ['a'], [0], ⟨⟨0, 0⟩, ⟨0, 1⟩⟩⟩) :=
  c1_error_surfaced_once ⟨[], some 7, ['a'], [0], ⟨⟨0, 0⟩, ⟨0, 1⟩⟩⟩ ⟨0, 1⟩ 7
    rfl rfl (by decide) (by decide)

/-- Counterexample to C1 as stated: over the stream `[Err 7, Ok 'a']` the
first `index_at((0,0))` yields the error, but the second call yields
`Some(Ok 0)` — not `None` — because the fill loop resumes reading the
stream once the error slot has been cleared. -/
theorem c1_cex :
    Inner.indexAt (Inner.mk0 [Except.error 7, Except.ok 'a'] ⟨0, 0⟩ : Inner Nat) ⟨0, 0⟩
      = some (some (Except.error 7), ⟨[Except.ok 'a'], none, [], [0], ⟨⟨0, 0⟩, ⟨0, 0⟩⟩⟩) ∧
    (Inner.indexAt (⟨[Except.ok 'a'], none, [], [0], ⟨⟨0, 0⟩, ⟨0, 0⟩⟩⟩ : Inner Nat)
        ⟨0, 0⟩).map Prod.fst = some (some (Except.ok 0)) :=
  ⟨rfl, rfl⟩

/-- Claim C2, corrected.  The original claim fails because the error slot is
cleared when the error is surfaced, after which fill attempts consume the
stream again (see `c2_cex`).  Amended: while a recorded stream error
remains in the terminal error slot, every fill attempt (`read_line`) is a
no-op that reports failure and consumes no input item. -/
theorem c2_fill_noop_while_errored (st : Inner ε) (e : ε) (he : st.error = some e) :
    readLine st = (st, false) := by
  obtain ⟨inp, err, dat, l, sp⟩ := st
  dsimp only at he
  subst he
  exact readLine_errored inp e dat l sp

/-- Witness for C2 at a concrete errored state with pending input. -/
theorem c2_witness :
    readLine (⟨[Except.ok 'a'], some 3, [], [0], ⟨⟨0, 0⟩, ⟨0, 0⟩⟩⟩ : Inner Nat)
      = (⟨[Except.ok 'a'], some 3, [], [0], ⟨⟨0, 0⟩, ⟨0, 0⟩⟩⟩, false) :=
  c2_fill_noop_while_errored ⟨[Except.ok 'a'], some 3, [], [0], ⟨⟨0, 0⟩, ⟨0, 0⟩⟩⟩ 3 rfl

/-- Counterexample to C2 as stated: over `[Err 7, Ok 'a']` the first
`index_at` records and surfaces the error (clearing the slot), and the next
fill attempt (`read_line`) then consumes the remaining input item `Ok 'a'`
— the buffer does pull from the source again after an error was recorded. -/
theorem c2_cex :
    Inner.indexAt (Inner.mk0 [Except.error 7, Except.ok 'a'] ⟨0, 0⟩ : Inner Nat) ⟨0, 0⟩
      = some (some (Except.error 7), ⟨[Except.ok 'a'], none, [], [0], ⟨⟨0, 0⟩, ⟨0, 0⟩⟩⟩) ∧
    (readLine (⟨[Except.ok 'a'], none, [], [0], ⟨⟨0, 0⟩, ⟨0, 0⟩⟩⟩ : Inner Nat)).1.input
      = [] :=
  ⟨rfl, rfl⟩

/-- Claim C3, corrected.  The original claim fails for `'\r'`, which resets
the column and thus moves the cursor strictly backward from any positive
column (see `c3_cex`).  Amended: for every position and every character `c`
other than `'\r'`, `next(pos, c) >= pos` lexicographically, with equality
exactly for the zero-width control characters (control characters other
than `'\n'` and `'\t'`). -/
theorem c3_next_monotone (p : Position) (c : Char) (hc : c ≠ '\r') :
    p ≤ p.next c ∧ (p.next c = p ↔ (isControl c = true ∧ c ≠ '\n' ∧ c ≠ '\t')) :=
  ⟨Position.le_next p hc, Position.next_eq_self_iff p hc⟩

/-- Witness for C3 at `pos = (0,0)`, `c = 'a'`. -/
theorem c3_witness :
    (⟨0, 0⟩ : Position) ≤ Position.next ⟨0, 0⟩ 'a' ∧
    (Position.next ⟨0, 0⟩ 'a' = ⟨0, 0⟩ ↔
      (isControl 'a' = true ∧ 'a' ≠ '\n' ∧ 'a' ≠ '\t')) :=
  c3_next_monotone ⟨0, 0⟩ 'a' (by decide)

/-- Counterexample to C3 as stated: `next((0,1), '\r') = (0,0) < (0,1)`. -/
theorem c3_cex :
    Position.next ⟨0, 1⟩ '\r' = ⟨0, 0⟩ ∧
    ¬((⟨0, 1⟩ : Position) ≤ Position.next ⟨0, 1⟩ '\r') := by
  decide

/-- Claim C4, corrected (the `Span` type is modelled from the spec, its
definition being outside `src/`).  The original claim fails for `'\r'`:
pushing `'\r'` onto a span anchored at a positive column moves `end` back
past `start` (see `c4_cex`).  Amended: `start <= end` holds for a freshly
created span and is preserved by `push(c)` for every character `c` other
than `'\r'`. -/
theorem c4_span_invariant (p : Position) (s : Span) (c : Char)
    (hc : c ≠ '\r') (hs : s.start ≤ s.endPos) :
    (Span.ofPos p).start ≤ (Span.ofPos p).endPos ∧
    (s.push c).start ≤ (s.push c).endPos :=
  ⟨Position.le_refl p, Position.le_trans hs (Position.le_next s.endPos hc)⟩

/-- Witness for C4 at a concrete span and character. -/
theorem c4_witness :
    (Span.ofPos ⟨1, 2⟩).start ≤ (Span.ofPos ⟨1, 2⟩).endPos ∧
    (Span.push ⟨⟨0, 0⟩, ⟨0, 1⟩⟩ 'x').start ≤ (Span.push ⟨⟨0, 0⟩, ⟨0, 1⟩⟩ 'x').endPos :=
  c4_span_invariant ⟨1, 2⟩ ⟨⟨0, 0⟩, ⟨0, 1⟩⟩ 'x' (by decide) (by decide)

/-- Counterexample to C4 as stated: pushing `'\r'` onto the empty span at
`(0,5)` yields `end = (0,0) < start = (0,5)`. -/
theorem c4_cex :
    ¬((Span.push ⟨⟨0, 5⟩, ⟨0, 5⟩⟩ '\r').start ≤ (Span.push ⟨⟨0, 5⟩, ⟨0, 5⟩⟩ '\r').endPos) := by
  decide

/-- Claim C5, confirmed: for a buffer anchored at `(0,0)` over the
error-free stream `"ab\ncd"`, successive `at` calls give
`at((0,0)) = 'a'`, `at((0,1)) = 'b'`, `at((1,0)) = 'c'`, `at((0,2)) = '\n'`
and `at((2,0))` = not-available (clean exhaustion, no error, no panic). -/
theorem c5_concrete_stream :
    atChain (Inner.mk0 (['a', 'b', '\n', 'c', 'd'].map Except.ok) ⟨0, 0⟩ : Inner Nat)
      [⟨0, 0⟩, ⟨0, 1⟩, ⟨1, 0⟩, ⟨0, 2⟩, ⟨2, 0⟩]
      = [some (some (Except.ok 'a')), some (some (Except.ok 'b')),
         some (some (Except.ok 'c')), some (some (Except.ok '\n')), some none] :=
  rfl

/-- Claim C7, corrected.  The original claim fails when the stream yields
further items after the error: the iterator index state is left unchanged
on an error yield, so the next call retries `get`, which refills from the
remaining stream and can yield further characters (see `c7_cex`).  Amended:
when the underlying stream yields no items after the recorded error, the
iterator yields the error exactly once — on the call where it is
encountered — and every subsequent `next()` yields nothing (the post-error
call returns `none` and leaves both buffer and iterator unchanged, so all
later calls repeat it). -/
theorem c7_iter_error_once (st : Inner ε) (it : Iter ε) (e : ε) (i : Nat)
    (he : st.error = some e) (hin : st.input = []) (hi : it.i = some (Except.ok i))
    (hlen : st.data.length ≤ i) (hpos : ¬it.endPos ≤ it.pos) :
    iterNext st it = (some (Except.error e), { st with error := none }, it) ∧
    iterNext { st with error := none } it = (none, { st with error := none }, it) := by
  obtain ⟨inp, err, dat, l, sp⟩ := st
  obtain ⟨ii, ipos, iend⟩ := it
  dsimp only at he hin hi hlen hpos ⊢
  subst he hin hi
  constructor
  · unfold iterNext
    rw [if_neg hpos]
    dsimp only
    rw [get_errored i [] e dat l sp hlen]
  · unfold iterNext
    by_cases hp : (iend : Position) ≤ ipos
    · rw [if_pos hp]
    · rw [if_neg hp]
      dsimp only
      rw [get_empty_input i dat l sp hlen]

/-- Witness for C7 at a concrete errored, exhausted buffer and iterator. -/
theorem c7_witness :
    iterNext (⟨[], some 9, ['a'], [0], ⟨⟨0, 0⟩, ⟨0, 1⟩⟩⟩ : Inner Nat)
        ⟨some (Except.ok 1), ⟨0, 1⟩, Position.sentinelEnd⟩
      = (some (Except.error 9), ⟨[], none, ['a'], [0], ⟨⟨0, 0⟩, ⟨0, 1⟩⟩⟩,
         ⟨some (Except.ok 1), ⟨0, 1⟩, Position.sentinelEnd⟩) ∧
    iterNext (⟨[], none, ['a'], [0], ⟨⟨0, 0⟩, ⟨0, 1⟩⟩⟩ : Inner Nat)
        ⟨some (Except.ok 1), ⟨0, 1⟩, Position.sentinelEnd⟩
      = (none, ⟨[], none, ['a'], [0], ⟨⟨0, 0⟩, ⟨0, 1⟩⟩⟩,
         ⟨some (Except.ok 1), ⟨0, 1⟩, Position.sentinelEnd⟩) :=
  c7_iter_error_once ⟨[], some 9, ['a'], [0], ⟨⟨0, 0⟩, ⟨0, 1⟩⟩⟩
    ⟨some (Except.ok 1), ⟨0, 1⟩, Position.sentinelEnd⟩ 9 1 rfl rfl rfl
    (by decide) (by decide)

/-- Counterexample to C7 as stated: over `[Err 7, Ok 'a']`, the first
`next()` yields the error, yet the second `next()` on the same iterator
yields the character `'a'`. -/
theorem c7_cex :
    iterNext (Inner.mk0 [Except.error 7, Except.ok 'a'] ⟨0, 0⟩ : Inner Nat)
        (iterStart (Inner.mk0 [Except.error 7, Except.ok 'a'] ⟨0, 0⟩))
      = (some (Except.error 7), ⟨[Except.ok 'a'], none, [], [0], ⟨⟨0, 0⟩, ⟨0, 0⟩⟩⟩,
         ⟨some (Except.ok 0), ⟨0, 0⟩, Position.sentinelEnd⟩) ∧
    (iterNext (⟨[Except.ok 'a'], none, [], [0], ⟨⟨0, 0⟩, ⟨0, 0⟩⟩⟩ : Inner Nat)
        ⟨some (Except.ok 0), ⟨0, 0⟩, Position.sentinelEnd⟩).1
      = some (Except.ok 'a') :=
  ⟨rfl, rfl⟩

/-- Claim C8, confirmed: for positions strictly before the buffer's anchor,
`index_at` and `at` return not-available without touching the state (in
particular without reading the stream). -/
theorem c8_before_start_frame (st : Inner ε) (pos : Position)
    (h : pos < st.span.start) :
    st.indexAt pos = some (none, st) ∧ st.atPos pos = some (none, st) := by
  have h1 : st.indexAt pos = some (none, st) := by
    unfold Inner.indexAt
    rw [if_pos h]
  refine ⟨h1, ?_⟩
  unfold Inner.atPos
  rw [h1]

/-- Witness for C8 at a concrete buffer anchored at `(1,0)`. -/
theorem c8_witness :
    Inner.indexAt (⟨[Except.ok 'q'], none, [], [0], ⟨⟨1, 0⟩, ⟨1, 0⟩⟩⟩ : Inner Nat) ⟨0, 9⟩
      = some (none, ⟨[Except.ok 'q'], none, [], [0], ⟨⟨1, 0⟩, ⟨1, 0⟩⟩⟩) ∧
    Inner.atPos (⟨[Except.ok 'q'], none, [], [0], ⟨⟨1, 0⟩, ⟨1, 0⟩⟩⟩ : Inner Nat) ⟨0, 9⟩
      = some (none, ⟨[Except.ok 'q'], none, [], [0], ⟨⟨1, 0⟩, ⟨1, 0⟩⟩⟩) :=
  c8_before_start_frame ⟨[Except.ok 'q'], none, [], [0], ⟨⟨1, 0⟩, ⟨1, 0⟩⟩⟩ ⟨0, 9⟩
    (by decide)

/-- Claim C9, confirmed: `next(pos, '\t')` keeps the line and moves the
column to the smallest multiple of 8 strictly greater than `pos.column`
(any `m > pos.column` with `m % 8 = 0` is at least it); concretely
column 0 maps to 8, column 5 to 8 and column 8 to 16. -/
theorem c9_tab_stop (p : Position) (m : Nat) (hm : p.column < m) (h8 : m % 8 = 0) :
    (p.next '\t').line = p.line ∧
    (p.next '\t').column = p.column / 8 * 8 + 8 ∧
    p.column < (p.next '\t').column ∧
    (p.next '\t').column % 8 = 0 ∧
    (p.next '\t').column ≤ m ∧
    (Position.next ⟨0, 0⟩ '\t').column = 8 ∧
    (Position.next ⟨0, 5⟩ '\t').column = 8 ∧
    (Position.next ⟨0, 8⟩ '\t').column = 16 := by
  have h : p.next '\t' = ⟨p.line, p.column / 8 * 8 + 8⟩ := rfl
  rw [h]
  refine ⟨rfl, rfl, ?_, ?_, ?_, by decide, by decide, by decide⟩ <;> dsimp only <;> omega

/-- Witness for C9 at `pos = (3,5)`, `m = 8`. -/
theorem c9_witness :
    (Position.next ⟨3, 5⟩ '\t').line = 3 ∧
    (Position.next ⟨3, 5⟩ '\t').column = 8 ∧
    5 < (Position.next ⟨3, 5⟩ '\t').column ∧
    (Position.next ⟨3, 5⟩ '\t').column % 8 = 0 ∧
    (Position.next ⟨3, 5⟩ '\t').column ≤ 8 ∧
    (Position.next ⟨0, 0⟩ '\t').column = 8 ∧
    (Position.next ⟨0, 5⟩ '\t').column = 8 ∧
    (Position.next ⟨0, 8⟩ '\t').column = 16 :=
  c9_tab_stop ⟨3, 5⟩ 8 (by decide) (by decide)

/-- Claim C6, corrected.  The original claim fails (a) for streams
containing `'\r'` or other zero-width control characters — trailing
characters that do not advance the span's end position are never reached by
the span-bounded iterator (see `c6_cex`, first part) — and (b) for buffers
anchored at a nonzero column, where the `index_at` walk misaligns and the
round trip returns the empty string (see `c6_cex`, second part).  Amended:
for every buffer anchored at a column-0 position over an error-free stream
of strictly advancing characters (no `'\r'`, no zero-width control
characters), and every prefix of it already consumed (any number of fill
steps), `iter_span(buffer.span()).into_string()` returns exactly the
characters consumed so far in their original stream order. -/
theorem c6_round_trip (chars : List Char) (L k : Nat)
    (hadv : ∀ c ∈ chars, advances c = true) :
    ∃ it st₂,
      iterSpan (fillN k (Inner.mk0 (ε := ε) (chars.map Except.ok) ⟨L, 0⟩))
        (fillN k (Inner.mk0 (ε := ε) (chars.map Except.ok) ⟨L, 0⟩)).span
        = some (it, st₂) ∧
      (intoString st₂ it).1
        = Except.ok (fillN k (Inner.mk0 (ε := ε) (chars.map Except.ok) ⟨L, 0⟩)).data := by
  set st := fillN k (Inner.mk0 (ε := ε) (chars.map Except.ok) ⟨L, 0⟩) with hst
  have hInv : InvBuf ⟨L, 0⟩ st :=
    fillN_preserves ⟨L, 0⟩ k _ (InvBuf_mk0 chars ⟨L, 0⟩ hadv)
  have hstart : st.span.start = ⟨L, 0⟩ := hInv.2.1
  have hend : st.span.endPos = replayPos ⟨L, 0⟩ st.data := hInv.2.2.1
  have hdat : ∀ c ∈ st.data, advances c = true := hInv.2.2.2.2.1
  have hmax : maxPos st.span.start st.span.start = st.span.start := by
    unfold maxPos; rw [if_pos (Position.le_refl _)]
  by_cases hd : st.data = []
  · obtain ⟨r, st', hr⟩ := indexAt_start_of_inv_empty ⟨L, 0⟩ rfl st hInv
    refine ⟨⟨r, ⟨L, 0⟩, st.span.endPos⟩, st', ?_, ?_⟩
    · simp only [iterSpan]
      rw [hmax, hstart, hr]
    · have hstop : (intoString st' (⟨r, ⟨L, 0⟩, st.span.endPos⟩ : Iter ε)).1
          = Except.ok [] := by
        refine intoString_stopped st' _ ?_
        dsimp only
        rw [hend, hd]
        exact Position.le_refl _
      rw [hstop, hd]
  · have hr := indexAt_start_of_inv ⟨L, 0⟩ rfl st hInv hd
    refine ⟨⟨some (Except.ok 0), ⟨L, 0⟩, st.span.endPos⟩, st, ?_, ?_⟩
    · simp only [iterSpan]
      rw [hmax, hstart, hr]
    · unfold intoString
      have hdrain := intoStringAux_drain st ⟨L, 0⟩ hdat st.data.length 0
        (st.input.length + st.data.length + 1) [] (by omega) (by omega)
      simp only [List.take_zero, List.drop_zero, List.nil_append, replayPos] at hdrain
      rw [hend]
      exact hdrain

/-- Witness for C6: the stream `"a\nb"`, two fill steps, anchor `(0,0)`. -/
theorem c6_witness :
    ∃ it st₂,
      iterSpan (fillN 2 (Inner.mk0 (ε := Nat) (['a', '\n', 'b'].map Except.ok) ⟨0, 0⟩))
        (fillN 2 (Inner.mk0 (ε := Nat) (['a', '\n', 'b'].map Except.ok) ⟨0, 0⟩)).span
        = some (it, st₂) ∧
      (intoString st₂ it).1
        = Except.ok (fillN 2 (Inner.mk0 (ε := Nat) (['a', '\n', 'b'].map Except.ok) ⟨0, 0⟩)).data :=
  c6_round_trip ['a', '\n', 'b'] 0 2 (by decide)

/-- Counterexample to C6 as stated: the round trip loses characters.  A
buffer at `(0,0)` that has consumed the stream `"\r"` reproduces `""`, not
`"\r"`; a buffer anchored at `(0,5)` that has consumed the stream `"\n"`
also reproduces `""`, not `"\n"`. -/
theorem c6_cex :
    (iterSpan (fillN 1 (Inner.mk0 (ε := Nat) [Except.ok '\r'] ⟨0, 0⟩))
        (fillN 1 (Inner.mk0 (ε := Nat) [Except.ok '\r'] ⟨0, 0⟩)).span).map
      (fun p => (intoString p.2 p.1).1) = some (Except.ok []) ∧
    (fillN 1 (Inner.mk0 (ε := Nat) [Except.ok '\r'] ⟨0, 0⟩)).data = ['\r'] ∧
    (iterSpan (fillN 1 (Inner.mk0 (ε := Nat) [Except.ok '\n'] ⟨0, 5⟩))
        (fillN 1 (Inner.mk0 (ε := Nat) [Except.ok '\n'] ⟨0, 5⟩)).span).map
      (fun p => (intoString p.2 p.1).1) = some (Except.ok []) ∧
    (fillN 1 (Inner.mk0 (ε := Nat) [Except.ok '\n'] ⟨0, 5⟩)).data = ['\n'] :=
  ⟨rfl, rfl, rfl, rfl⟩

/-- Claim C10: code bug.  For a buffer anchored at a nonzero column the
`index_at` forward walk starts its simulated cursor at column 0 while the
store's first character actually sits at the anchor column, so the walk can
run past the end of the store: anchored at `(0,5)` over the stream `"ab"`,
`index_at((0,6))` indexes `data[2]` in a 2-element store — an
out-of-bounds access (panic), modelled here by the `none` result. -/
theorem c10_walk_out_of_bounds :
    Inner.indexAt (Inner.mk0 (['a', 'b'].map Except.ok) ⟨0, 5⟩ : Inner Nat) ⟨0, 6⟩
      = none :=
  rfl

end SourceSpan
